import Mathlib

/-!
Verification development for the `otadump` extraction engine (`src/cmd.rs`).

The engine reconstructs partition images from an OTA payload: a manifest
(block size, partitions, operations, extents) plus a shared data blob.
This file gives a shallow embedding of the core functions of `cmd.rs`:

* `read_exact` / `read_exact_best_effort` — the pure model of reading from a
  deterministic byte stream (the decompressed source stream is modelled as a
  `List Nat` consumed from the front);
* `write_at` / `read_extent` — byte-range writes and reads on a partition
  buffer modelled as a `List Nat`;
* `run_op_replace`, `extract_dst_extents`, `verify_sha256`, `run_op` — direct
  translations of the functions of the same names;
* `open_partition_file`, `run` — the partition driver and the overall run,
  with the filesystem modelled as a list of existing paths and output actions
  recorded as an effect trace.

External collaborators (the SHA-256 implementation of the `sha2` crate and
the bzip2/xz streaming decompressors) are modelled as abstract functions
`digest`, `bzdec`, `xzdec : List Nat → List Nat` passed as parameters; the
engine's own logic never inspects their output beyond treating it as a byte
sequence.  Rust panics (`unwrap` on an empty slice, the unsigned
underflow/division by zero in the alignment computation when
`block_size = 0`) are represented by the explicit `RunResult.panic`
constructor.
-/

namespace Otadump

/-- Errors produced by `run_op` and its helpers.  Constructor names follow
the spec's error taxonomy; the doc of each names the `cmd.rs` message. -/
inductive OpError where
  /-- `data_length not defined` -/
  | dataLengthMissing
  /-- `data_offset not defined` -/
  | dataOffsetMissing
  /-- `data offset exceeds payload size` -/
  | sourceOutOfBounds
  /-- `hash mismatch: expected .., got ..` -/
  | hashMismatch
  /-- `start_block not defined in extent` -/
  | startBlockMissing
  /-- `num_blocks not defined in extent` -/
  | numBlocksMissing
  /-- `extent exceeds partition size` -/
  | extentOutOfBounds
  /-- `failed to write to buffer` (a `read_exact` call hit end of stream) -/
  | readShort
  /-- `read fewer bytes than expected` (the stream still has bytes after all
  extents were filled — the spec's `ExcessSourceData`) -/
  | excessData
  /-- `more dst blocks than data, even with padding` (the spec's
  `InsufficientSourceData`) -/
  | insufficientData
  /-- `unimplemented operation: ..` -/
  | unimplemented
  /-- `invalid operation` -/
  | invalidOperation
  deriving DecidableEq, Repr

/-- Outcome of running one operation: success, a returned error, or a Rust
panic (`unwrap` failure / arithmetic panic). -/
inductive RunResult (α : Type) where
  | ok (val : α)
  | err (e : OpError)
  | panic
  deriving DecidableEq, Repr

/-- The operation kinds `run_op` distinguishes.  `Type::from_i32` on an
unknown tag yields `none` (modelled by `Option OpType` in the operation);
all known-but-unimplemented kinds (MOVE, BSDIFF, ...) are collapsed into
`unsupported`, which `run_op` rejects. -/
inductive OpType where
  | replace
  | replaceBz
  | replaceXz
  | zero
  | unsupported
  deriving DecidableEq, Repr

/-- A destination extent as decoded from the manifest: both fields are
optional at the wire level. -/
structure Extent where
  start_block : Option Nat
  num_blocks : Option Nat
  deriving DecidableEq, Repr

/-- An install operation as decoded from the manifest. -/
structure InstallOperation where
  type? : Option OpType
  data_offset : Option Nat
  data_length : Option Nat
  data_sha256_hash : Option (List Nat)
  dst_extents : List Extent
  deriving DecidableEq, Repr

/-- `new_partition_info`'s only field used by the engine. -/
structure PartitionInfo where
  size : Option Nat
  deriving DecidableEq, Repr

/-- One partition update of the manifest. -/
structure PartitionUpdate where
  partition_name : String
  new_partition_info : Option PartitionInfo
  operations : List InstallOperation
  deriving DecidableEq, Repr

/-- The decoded manifest (only the fields `run` uses). -/
structure DeltaArchiveManifest where
  block_size : Option Nat
  partitions : List PartitionUpdate
  deriving DecidableEq, Repr

/-! ## Stream and buffer primitives -/

/-- Pure model of `Read::read_exact` on a deterministic byte stream: succeed
with the first `n` bytes and the rest of the stream, or fail when fewer than
`n` bytes remain. -/
def read_exact (stream : List Nat) (n : Nat) : Option (List Nat × List Nat) :=
  if n ≤ stream.length then some (stream.take n, stream.drop n) else none

/-- Pure model of `read_exact_best_effort`: read until the buffer is full or
the stream is exhausted (interrupted reads are retried in the source, which
is invisible in the deterministic model).  Returns the bytes obtained and
the rest of the stream. -/
def read_exact_best_effort (stream : List Nat) (n : Nat) : List Nat × List Nat :=
  (stream.take n, stream.drop n)

/-- Write `data` into `buf` starting at byte offset `off` (the model of
writing through a resolved extent slice). -/
def write_at (buf : List Nat) (off : Nat) (data : List Nat) : List Nat :=
  buf.take off ++ data ++ buf.drop (off + data.length)

/-- Read back the byte range of a resolved extent `(offset, length)`. -/
def read_extent (buf : List Nat) (e : Nat × Nat) : List Nat :=
  (buf.drop e.1).take e.2

/-- Concatenation, in declared order, of the contents of a list of resolved
extents. -/
def read_extents (buf : List Nat) (exts : List (Nat × Nat)) : List Nat :=
  (exts.map (read_extent buf)).flatten

/-- Total byte length of a list of resolved extents. -/
def extents_len (exts : List (Nat × Nat)) : Nat :=
  (exts.map Prod.snd).sum

/-- Two resolved extents occupy disjoint byte ranges. -/
def ExtDisjoint (a b : Nat × Nat) : Prop :=
  a.1 + a.2 ≤ b.1 ∨ b.1 + b.2 ≤ a.1

instance (a b : Nat × Nat) : Decidable (ExtDisjoint a b) :=
  inferInstanceAs (Decidable (_ ∨ _))

/-! ## The literal-stream write algorithm (`run_op_replace`) -/

/-- The `for extent in dst_extents.iter_mut()` loop of `run_op_replace`:
fill each extent completely via `read_exact`, accumulating `bytes_read` in
`acc`.  Returns (`some` (remaining stream, bytes_read) or `none` on a failed
`read_exact`) together with the buffer as written so far. -/
def fill_extents (stream : List Nat) (exts : List (Nat × Nat)) (buf : List Nat)
    (acc : Nat) : Option (List Nat × Nat) × List Nat :=
  match exts with
  | [] => (some (stream, acc), buf)
  | e :: rest =>
    match read_exact stream e.2 with
    | none => (none, buf)
    | some (chunk, s2) => fill_extents s2 rest (write_at buf e.1 chunk) (acc + e.2)

/-- Tail of `run_op_replace` after the non-last extents are filled: the
best-effort read into the last extent, the excess-data check
(`reader.bytes().next().is_none()`), and the block-alignment check
`((bytes_read + block_size - 1) / block_size) * block_size == dst_len`.
With `block_size = 0` the source panics there (unsigned underflow in debug,
division by zero otherwise): modelled by `RunResult.panic`. -/
def replace_finish (s1 : List Nat) (acc : Nat) (lastE : Nat × Nat)
    (block_size dst_len : Nat) (buf1 : List Nat) : RunResult Unit × List Nat :=
  let got := (read_exact_best_effort s1 lastE.2).1
  let s2 := (read_exact_best_effort s1 lastE.2).2
  let buf2 := write_at buf1 lastE.1 got
  let bytes_read := acc + got.length
  if s2.isEmpty then
    if block_size = 0 then (.panic, buf2)
    else if (bytes_read + block_size - 1) / block_size * block_size = dst_len then
      (.ok (), buf2)
    else (.err .insufficientData, buf2)
  else (.err .excessData, buf2)

/-- `run_op_replace`: split off the last destination extent (panicking, like
`split_last_mut().unwrap()`, when there is none), fill all others completely
in declared order, then finish with the best-effort read and the
excess/alignment checks. -/
def run_op_replace (stream : List Nat) (dst_extents : List (Nat × Nat))
    (block_size : Nat) (buf : List Nat) : RunResult Unit × List Nat :=
  match dst_extents.getLast? with
  | none => (.panic, buf)
  | some lastE =>
    match fill_extents stream dst_extents.dropLast buf 0 with
    | (none, buf1) => (.err .readShort, buf1)
    | (some (s1, acc), buf1) =>
      replace_finish s1 acc lastE block_size (extents_len dst_extents) buf1

/-! ## Extent resolution, hash verification, and `run_op` -/

/-- `extract_dst_extents`: resolve each declared extent to a byte range
`(start_block * block_size, num_blocks * block_size)` against the partition
length, failing on a missing field or an out-of-bounds extent.  Like the
Rust `collect::<Result<_>>`, it stops at the first failing extent. -/
def extract_dst_extents (exts : List Extent) (partition_len block_size : Nat) :
    Except OpError (List (Nat × Nat)) :=
  match exts with
  | [] => .ok []
  | e :: rest =>
    match e.start_block with
    | none => .error .startBlockMissing
    | some sb =>
      match e.num_blocks with
      | none => .error .numBlocksMissing
      | some nb =>
        if sb * block_size + nb * block_size ≤ partition_len then
          match extract_dst_extents rest partition_len block_size with
          | .error er => .error er
          | .ok rs => .ok ((sb * block_size, nb * block_size) :: rs)
        else .error .extentOutOfBounds

/-- `verify_sha256`: compare the digest of the data against the expected
hash.  The SHA-256 function itself lives in the external `sha2` crate and is
a parameter of the model. -/
def verify_sha256 (digest : List Nat → List Nat) (data exp_hash : List Nat) :
    Except OpError Unit :=
  if digest data = exp_hash then .ok () else .error .hashMismatch

/-- The `match &op.data_sha256_hash { Some(hash) if !self.no_verify => .. }`
step of `run_op`: verify only when a hash is present and verification is
enabled. -/
def check_data_hash (noVerify : Bool) (digest : List Nat → List Nat)
    (hash? : Option (List Nat)) (data : List Nat) : Except OpError Unit :=
  match hash?, noVerify with
  | some h, false => verify_sha256 digest data h
  | _, _ => .ok ()

/-- The dispatch on `Type::from_i32(op.r#type)` at the end of `run_op`,
after the destination extents have been resolved. -/
def run_op_dispatch (bzdec xzdec : List Nat → List Nat) (type? : Option OpType)
    (data : List Nat) (exts : List (Nat × Nat)) (block_size : Nat)
    (buf : List Nat) : RunResult Unit × List Nat :=
  match type? with
  | some .replace => run_op_replace data exts block_size buf
  | some .replaceBz => run_op_replace (bzdec data) exts block_size buf
  | some .replaceXz => run_op_replace (xzdec data) exts block_size buf
  | some .zero => (.ok (), buf)
  | some .unsupported => (.err .unimplemented, buf)
  | none => (.err .invalidOperation, buf)

/-- `run_op`: slice the operation's source range out of the payload data
(both fields are required, for every operation kind), verify its hash when
applicable, resolve the destination extents, and dispatch on the operation
kind.  The partition buffer is threaded through explicitly; error paths
return it unchanged up to the writes already performed. -/
def run_op (noVerify : Bool) (digest bzdec xzdec : List Nat → List Nat)
    (op : InstallOperation) (payloadData : List Nat)
    (partition_len block_size : Nat) (buf : List Nat) :
    RunResult Unit × List Nat :=
  match op.data_length with
  | none => (.err .dataLengthMissing, buf)
  | some data_len =>
    match op.data_offset with
    | none => (.err .dataOffsetMissing, buf)
    | some offset =>
      if offset + data_len ≤ payloadData.length then
        match check_data_hash noVerify digest op.data_sha256_hash
            ((payloadData.drop offset).take data_len) with
        | .error e => (.err e, buf)
        | .ok _ =>
          match extract_dst_extents op.dst_extents partition_len block_size with
          | .error e => (.err e, buf)
          | .ok exts =>
            run_op_dispatch bzdec xzdec op.type?
              ((payloadData.drop offset).take data_len) exts block_size buf
      else (.err .sourceOutOfBounds, buf)

/-! ## The partition driver and the overall run -/

/-- Errors of the outer `run` pipeline. -/
inductive RunError where
  /-- `invalid magic bytes: ..` -/
  | invalidMagic
  /-- `block_size not defined` -/
  | blockSizeMissing
  /-- `partition ".." not found in manifest` -/
  | partitionNotFound (name : String)
  /-- `unable to determine output file size` -/
  | sizeUnspecified
  /-- `unable to open file for writing: ..` with `create_new(true)` and the
  target path already present -/
  | outputAlreadyExists
  deriving DecidableEq, Repr

/-- Output-location actions performed by a run, in order. -/
inductive Effect where
  | createdDir
  | createdFile (name : String)
  deriving DecidableEq, Repr

/-- Terminal outcome of a whole run.  An operation failure inside a spawned
task calls `.expect(..)` in the source, i.e. panics the worker thread:
modelled by `panic`. -/
inductive RunOutcome where
  | ok
  | fatal (e : RunError)
  | panic
  deriving DecidableEq, Repr

/-- `Path::new(name).with_extension("img")`, with paths modelled as plain
strings relative to the output directory. -/
def partition_path (name : String) : String :=
  String.append name ".img"

/-- `open_partition_file`: determine the declared partition size (failing
`sizeUnspecified` when absent), then create the output file with
`create_new(true)` (failing `outputAlreadyExists` when the path is already
occupied, never overwriting).  The filesystem is modelled as the list of
existing paths; it is returned unchanged on failure. -/
def open_partition_file (existing : List String) (update : PartitionUpdate) :
    Except RunError Nat × List String :=
  match update.new_partition_info.bind PartitionInfo.size with
  | none => (.error .sizeUnspecified, existing)
  | some len =>
    if existing.contains (partition_path update.partition_name) then
      (.error .outputAlreadyExists, existing)
    else (.ok len, partition_path update.partition_name :: existing)

/-- Run all operations of one partition against its buffer.  The source
dispatches them to a thread pool; since their destination ranges never
overlap for a well-formed manifest the model executes them sequentially in
declared order, stopping at the first failure (whose `.expect` panics the
worker thread in the source). -/
def run_ops (noVerify : Bool) (digest bzdec xzdec : List Nat → List Nat)
    (payloadData : List Nat) (block_size : Nat) (ops : List InstallOperation)
    (buf : List Nat) : RunResult Unit × List Nat :=
  match ops with
  | [] => (.ok (), buf)
  | op :: rest =>
    match run_op noVerify digest bzdec xzdec op payloadData buf.length block_size buf with
    | (.ok _, buf2) => run_ops noVerify digest bzdec xzdec payloadData block_size rest buf2
    | (.err e, buf2) => (.err e, buf2)
    | (.panic, buf2) => (.panic, buf2)

/-- The per-partition loop of `run`: open each selected partition's output
file (recording the `createdFile` effect), run its operations on a
zero-initialized buffer of the declared size (a freshly created file
extended by `set_len` reads as zeros), and continue with the remaining
partitions.  An operation failure panics the run; an open failure aborts it
with that error. -/
def process_partitions (noVerify : Bool) (digest bzdec xzdec : List Nat → List Nat)
    (payloadData : List Nat) (block_size : Nat) (updates : List PartitionUpdate)
    (existing : List String) : RunOutcome × List Effect :=
  match updates with
  | [] => (.ok, [])
  | u :: rest =>
    match open_partition_file existing u with
    | (.error e, _) => (.fatal e, [])
    | (.ok len, existing2) =>
      match run_ops noVerify digest bzdec xzdec payloadData block_size u.operations
          (List.replicate len 0) with
      | (.ok _, _) =>
        match process_partitions noVerify digest bzdec xzdec payloadData block_size
            rest existing2 with
        | (res, effs) => (res, Effect.createdFile u.partition_name :: effs)
      | (_, _) => (.panic, [Effect.createdFile u.partition_name])

/-- The payload magic `b"CrAU"`. -/
def crau_magic : List Nat := [67, 114, 65, 85]

/-- The block-size step of `run`:
`manifest.block_size.context("block_size not defined")?` — only presence is
checked, any value (including `0`) is accepted. -/
def require_block_size (bs : Option Nat) : Except RunError Nat :=
  match bs with
  | none => .error .blockSizeMissing
  | some b => .ok b

/-- `Cmd::run`, after payload framing: check the magic bytes, require
`block_size`, fail fast with `partitionNotFound` when a requested partition
name is absent from the manifest, then create the output directory and
process every selected partition.  The second component is the trace of
output locations created. -/
def run (magic : List Nat) (manifest : DeltaArchiveManifest)
    (payloadData : List Nat) (requested : List String) (noVerify : Bool)
    (existing : List String) (digest bzdec xzdec : List Nat → List Nat) :
    RunOutcome × List Effect :=
  if magic = crau_magic then
    match require_block_size manifest.block_size with
    | .error e => (.fatal e, [])
    | .ok block_size =>
      match requested.find?
          (fun r => !(manifest.partitions.map PartitionUpdate.partition_name).contains r) with
      | some name => (.fatal (.partitionNotFound name), [])
      | none =>
        match process_partitions noVerify digest bzdec xzdec payloadData block_size
            (manifest.partitions.filter
              (fun u => requested.isEmpty || requested.contains u.partition_name))
            existing with
        | (res, effs) => (res, Effect.createdDir :: effs)
  else (.fatal .invalidMagic, [])

/-- An extent record with both fields present. -/
def mk_extent (p : Nat × Nat) : Extent :=
  ⟨some p.1, some p.2⟩

/-! ## Helper lemmas -/

theorem read_exact_of_le {stream : List Nat} {n : Nat} (h : n ≤ stream.length) :
    read_exact stream n = some (stream.take n, stream.drop n) := by
  simp [read_exact, h]

theorem write_at_zero_nil (buf : List Nat) : write_at buf 0 [] = buf := by
  simp [write_at]

/-- `extract_dst_extents` never reports a hash mismatch. -/
theorem extract_dst_extents_ne_hash (exts : List Extent) (pl bs : Nat) :
    extract_dst_extents exts pl bs ≠ .error .hashMismatch := by
  induction exts with
  | nil => simp [extract_dst_extents]
  | cons e rest ih =>
    simp only [extract_dst_extents]
    cases e.start_block with
    | none => simp
    | some sb =>
      cases e.num_blocks with
      | none => simp
      | some nb =>
        by_cases hb : sb * bs + nb * bs ≤ pl
        · simp only [if_pos hb]
          cases hrec : extract_dst_extents rest pl bs with
          | error er =>
            intro hcontra
            apply ih
            rw [hrec]
            cases hcontra
            rfl
          | ok rs => simp
        · simp [if_neg hb]

/-- `replace_finish` never reports a hash mismatch. -/
theorem replace_finish_ne_hash (s1 : List Nat) (acc : Nat) (lastE : Nat × Nat)
    (bs dl : Nat) (buf1 : List Nat) :
    (replace_finish s1 acc lastE bs dl buf1).1 ≠ .err .hashMismatch := by
  simp only [replace_finish]
  by_cases h2 : ((read_exact_best_effort s1 lastE.2).2).isEmpty
  · simp only [h2, if_true]
    by_cases hbs : bs = 0
    · simp [hbs]
    · simp only [if_neg hbs]
      by_cases hal : (acc + ((read_exact_best_effort s1 lastE.2).1).length + bs - 1) / bs * bs = dl
      · simp [hal]
      · simp [hal]
  · simp [h2]

/-- `run_op_replace` never reports a hash mismatch. -/
theorem run_op_replace_ne_hash (stream : List Nat) (exts : List (Nat × Nat))
    (bs : Nat) (buf : List Nat) :
    (run_op_replace stream exts bs buf).1 ≠ .err .hashMismatch := by
  simp only [run_op_replace]
  cases hlast : exts.getLast? with
  | none => simp
  | some lastE =>
    cases hfill : fill_extents stream exts.dropLast buf 0 with
    | mk o buf1 =>
      cases o with
      | none => simp
      | some p =>
        cases p with
        | mk s1 acc => exact replace_finish_ne_hash s1 acc lastE bs (extents_len exts) buf1

/-- `run_op_dispatch` never reports a hash mismatch. -/
theorem run_op_dispatch_ne_hash (bzdec xzdec : List Nat → List Nat)
    (type? : Option OpType) (data : List Nat) (exts : List (Nat × Nat))
    (bs : Nat) (buf : List Nat) :
    (run_op_dispatch bzdec xzdec type? data exts bs buf).1 ≠ .err .hashMismatch := by
  cases type? with
  | none => simp [run_op_dispatch]
  | some t =>
    cases t with
    | replace => exact run_op_replace_ne_hash data exts bs buf
    | replaceBz => exact run_op_replace_ne_hash (bzdec data) exts bs buf
    | replaceXz => exact run_op_replace_ne_hash (xzdec data) exts bs buf
    | zero => simp [run_op_dispatch]
    | unsupported => simp [run_op_dispatch]

/-! ## Claims -/

/-- Claim C9: for every Replace-family operation whose destination extent
list is empty, `run_op_replace` panics (the `split_last_mut().unwrap()` on
an empty slice) instead of returning an error result, for every stream,
block size and buffer. -/
theorem claim_C9 (stream : List Nat) (block_size : Nat) (buf : List Nat) :
    run_op_replace stream [] block_size buf = (.panic, buf) := by
  simp [run_op_replace]

/-- Claim C6: resolving a destination extent with fields `start_block` and
`num_blocks` against a partition of length `partition_len` fails with
`ExtentOutOfBounds` exactly when `start_block * block_size +
num_blocks * block_size` exceeds `partition_len`, and otherwise yields the
byte range starting at `start_block * block_size` of length
`num_blocks * block_size`; a whole extent list resolves successfully iff
every extent passes this bound. -/
theorem claim_C6 (l : List (Nat × Nat)) (partition_len block_size : Nat) :
    ((∀ p ∈ l, p.1 * block_size + p.2 * block_size ≤ partition_len) →
      extract_dst_extents (l.map mk_extent) partition_len block_size
        = .ok (l.map (fun p => (p.1 * block_size, p.2 * block_size)))) ∧
    ((¬ ∀ p ∈ l, p.1 * block_size + p.2 * block_size ≤ partition_len) →
      extract_dst_extents (l.map mk_extent) partition_len block_size
        = .error .extentOutOfBounds) := by
  induction l with
  | nil => simp [extract_dst_extents]
  | cons p rest ih =>
    constructor
    · intro hall
      have hp := hall p (List.mem_cons_self p rest)
      have hrest := ih.1 (fun q hq => hall q (List.mem_cons_of_mem p hq))
      simp [extract_dst_extents, mk_extent, hp, hrest]
    · intro hnot
      by_cases hp : p.1 * block_size + p.2 * block_size ≤ partition_len
      · have hrest : ¬ ∀ q ∈ rest, q.1 * block_size + q.2 * block_size ≤ partition_len := by
          intro hall
          exact hnot (by
            intro q hq
            rcases List.mem_cons.mp hq with h | h
            · rw [h]; exact hp
            · exact hall q h)
        have := ih.2 hrest
        simp [extract_dst_extents, mk_extent, hp, this]
      · simp [extract_dst_extents, mk_extent, hp]

/-- Claim C6 witness: a concrete in-bounds list resolves to its byte
ranges, and a concrete out-of-bounds list fails with `ExtentOutOfBounds`. -/
theorem claim_C6_witness :
    extract_dst_extents ([(0, 1), (1, 1)].map mk_extent) 4 2
        = .ok [(0, 2), (2, 2)] ∧
    extract_dst_extents ([(2, 2)].map mk_extent) 4 2
        = .error .extentOutOfBounds :=
  ⟨(claim_C6 [(0, 1), (1, 1)] 4 2).1 (by decide),
   (claim_C6 [(2, 2)] 4 2).2 (by decide)⟩

/-- Claim C8: opening a partition's output file fails with
`OutputAlreadyExists` when a file already occupies the target path (its
declared size being present), leaving the filesystem unchanged — extraction
never overwrites; and when the declared partition size is absent from the
manifest it fails with `SizeUnspecified` instead of creating any file. -/
theorem claim_C8 (existing : List String) (update : PartitionUpdate) :
    (update.new_partition_info.bind PartitionInfo.size = none →
      open_partition_file existing update = (.error .sizeUnspecified, existing)) ∧
    (∀ len, update.new_partition_info.bind PartitionInfo.size = some len →
      existing.contains (partition_path update.partition_name) = true →
      open_partition_file existing update = (.error .outputAlreadyExists, existing)) := by
  constructor
  · intro h
    simp [open_partition_file, h]
  · intro len hlen hcont
    simp only [open_partition_file, hlen, hcont, if_pos]

/-- Claim C8 witness: with `boot.img` already present, opening partition
`boot` fails with `OutputAlreadyExists` and the filesystem is unchanged;
with no declared size it fails with `SizeUnspecified`. -/
theorem claim_C8_witness :
    open_partition_file ["boot.img"]
        ⟨"boot", some ⟨some 8⟩, []⟩ = (.error .outputAlreadyExists, ["boot.img"]) ∧
    open_partition_file [] ⟨"boot", some ⟨none⟩, []⟩
        = (.error .sizeUnspecified, []) :=
  ⟨(claim_C8 ["boot.img"] ⟨"boot", some ⟨some 8⟩, []⟩).2 8 rfl (by decide),
   (claim_C8 [] ⟨"boot", some ⟨none⟩, []⟩).1 rfl⟩

/-- Claim C7: if the partition allow-list names a partition absent from the
decoded manifest, the run aborts with `PartitionNotFound` before any
extraction work begins and before any output location is created (the
effect trace is empty). -/
theorem claim_C7 (magic : List Nat) (manifest : DeltaArchiveManifest)
    (payloadData : List Nat) (requested : List String) (noVerify : Bool)
    (existing : List String) (digest bzdec xzdec : List Nat → List Nat)
    (r : String) (block_size : Nat)
    (hmagic : magic = crau_magic)
    (hbs : manifest.block_size = some block_size)
    (hr : r ∈ requested)
    (hmiss : (manifest.partitions.map PartitionUpdate.partition_name).contains r = false) :
    ∃ name,
      run magic manifest payloadData requested noVerify existing digest bzdec xzdec
        = (.fatal (.partitionNotFound name), []) := by
  have hsome : (requested.find?
      (fun s => !(manifest.partitions.map PartitionUpdate.partition_name).contains s)).isSome := by
    rw [List.find?_isSome]
    exact ⟨r, hr, by simpa using hmiss⟩
  rcases Option.isSome_iff_exists.mp hsome with ⟨name, hfind⟩
  refine ⟨name, ?_⟩
  subst hmagic
  simp only [run, if_true, eq_self_iff_true]
  rw [hbs]
  simp only [require_block_size]
  rw [hfind]

/-- Claim C7 witness: requesting partition `boot` from a manifest that only
contains `system` aborts with `PartitionNotFound` and an empty effect
trace. -/
theorem claim_C7_witness :
    ∃ name,
      run [67, 114, 65, 85]
          ⟨some 2, [⟨"system", some ⟨some 2⟩, []⟩]⟩
          [] ["boot"] false [] (fun _ => []) id id
        = (.fatal (.partitionNotFound name), []) :=
  claim_C7 [67, 114, 65, 85] ⟨some 2, [⟨"system", some ⟨some 2⟩, []⟩]⟩
    [] ["boot"] false [] (fun _ => []) id id "boot" 2 rfl rfl
    (by decide) (by decide)

/-- Claim C2 counterexample: a manifest whose single partition declares two
fully overlapping extents (blocks `[0,1)` twice) that moreover fail to
exactly cover the declared 2-byte partition (they total 4 bytes) is not
rejected: the run dispatches the writes and completes successfully.  The
engine therefore performs no disjointness / exact-coverage verification
before writing. -/
theorem claim_C2_counterexample :
    run [67, 114, 65, 85]
        ⟨some 2,
         [⟨"a", some ⟨some 2⟩,
           [⟨some .replace, some 0, some 4, none,
             [⟨some 0, some 1⟩, ⟨some 0, some 1⟩]⟩]⟩]⟩
        [1, 2, 3, 4] [] false [] (fun _ => []) id id
      = (.ok, [.createdDir, .createdFile "a"]) := by
  decide

/-- Claim C2 (amended): before dispatching writes, the engine checks each
destination extent only against the partition bound; it performs no
pairwise-disjointness or exact-coverage verification, so even a duplicated
(hence fully overlapping) in-bounds extent resolves successfully. -/
theorem claim_C2 (sb nb partition_len block_size : Nat)
    (h : sb * block_size + nb * block_size ≤ partition_len) :
    extract_dst_extents [mk_extent (sb, nb), mk_extent (sb, nb)]
        partition_len block_size
      = .ok [(sb * block_size, nb * block_size), (sb * block_size, nb * block_size)] := by
  simp [extract_dst_extents, mk_extent, h]

/-- Claim C2 witness: the duplicated extent `(0, 1)` at block size 2 in a
2-byte partition resolves to the same byte range twice. -/
theorem claim_C2_witness :
    extract_dst_extents [mk_extent (0, 1), mk_extent (0, 1)] 2 2
      = .ok [(0, 2), (0, 2)] :=
  claim_C2 0 1 2 2 (by decide)

/-- Claim C1 counterexample: a ZeroFill operation whose source byte range is
absent (`data_length = none`) does not complete successfully — `run_op`
fails with the `data_length not defined` error before even looking at the
operation kind. -/
theorem claim_C1_counterexample :
    run_op false (fun _ => []) id id
        ⟨some .zero, none, none, none, []⟩ [] 4 2 [0, 0]
      = (.err .dataLengthMissing, [0, 0]) := by
  decide

/-- Claim C1 (amended): for a ZeroFill operation whose source byte-range
fields are present and in bounds (they are mandatory for every operation
kind), whose hash check passes (or is skipped), and whose destination
extents resolve, `run_op` completes successfully and performs no write: the
partition buffer is returned unchanged. -/
theorem claim_C1 (noVerify : Bool) (digest bzdec xzdec : List Nat → List Nat)
    (op : InstallOperation) (payloadData : List Nat)
    (partition_len block_size : Nat) (buf : List Nat)
    (data_len offset : Nat) (exts : List (Nat × Nat))
    (htype : op.type? = some .zero)
    (hdl : op.data_length = some data_len)
    (hdo : op.data_offset = some offset)
    (hsrc : offset + data_len ≤ payloadData.length)
    (hhash : check_data_hash noVerify digest op.data_sha256_hash
        ((payloadData.drop offset).take data_len) = .ok ())
    (hext : extract_dst_extents op.dst_extents partition_len block_size = .ok exts) :
    run_op noVerify digest bzdec xzdec op payloadData partition_len block_size buf
      = (.ok (), buf) := by
  simp only [run_op, hdl, hdo, if_pos hsrc, hhash, hext, run_op_dispatch, htype]

/-- Claim C1 witness: a concrete ZeroFill operation with a present in-bounds
source range and one in-bounds extent succeeds and leaves the buffer
untouched. -/
theorem claim_C1_witness :
    run_op false (fun _ => []) id id
        ⟨some .zero, some 0, some 2, none, [⟨some 0, some 1⟩]⟩
        [5, 6] 2 2 [7, 7]
      = (.ok (), [7, 7]) :=
  claim_C1 false (fun _ => []) id id
    ⟨some .zero, some 0, some 2, none, [⟨some 0, some 1⟩]⟩
    [5, 6] 2 2 [7, 7] 2 0 [(0, 2)] rfl rfl rfl (by decide) rfl rfl

/-- With `block_size = 0` every well-formed extent resolves to the empty
byte range `(0, 0)`: the bounds check trivially passes. -/
theorem extract_dst_extents_zero_bs (exts : List Extent) (pl : Nat)
    (hf : ∀ e ∈ exts, e.start_block.isSome ∧ e.num_blocks.isSome) :
    extract_dst_extents exts pl 0 = .ok (List.replicate exts.length (0, 0)) := by
  induction exts with
  | nil => simp [extract_dst_extents]
  | cons e rest ih =>
    obtain ⟨hsb, hnb⟩ := hf e (List.mem_cons_self e rest)
    rcases Option.isSome_iff_exists.mp hsb with ⟨sb, hsb'⟩
    rcases Option.isSome_iff_exists.mp hnb with ⟨nb, hnb'⟩
    have := ih (fun q hq => hf q (List.mem_cons_of_mem e hq))
    simp [extract_dst_extents, hsb', hnb', this, List.replicate_succ]

/-- Filling any number of empty extents from an exhausted stream succeeds
without reading and without writing. -/
theorem fill_extents_zero (n : Nat) :
    ∀ (buf : List Nat) (acc : Nat),
      fill_extents [] (List.replicate n (0, 0)) buf acc = (some ([], acc), buf) := by
  induction n with
  | zero => intro buf acc; simp [fill_extents]
  | succ m ih =>
    intro buf acc
    rw [List.replicate_succ]
    simp only [fill_extents, read_exact, List.length_nil, Nat.le_refl, if_pos,
      List.take_nil, List.drop_nil, write_at_zero_nil]
    simpa using ih buf acc

/-- `run_op_replace` on an exhausted stream, a nonempty list of empty
extents, and `block_size = 0` reaches the alignment computation and panics
(unsigned underflow / division by zero), leaving the buffer unchanged. -/
theorem run_op_replace_zero_bs (m : Nat) (buf : List Nat) :
    run_op_replace [] (List.replicate (m + 1) (0, 0)) 0 buf = (.panic, buf) := by
  rw [List.replicate_succ']
  simp only [run_op_replace, List.getLast?_concat, List.dropLast_concat,
    fill_extents_zero, replace_finish, read_exact_best_effort,
    List.take_nil, List.drop_nil, List.isEmpty_nil, if_pos, if_true,
    write_at_zero_nil]

/-- Claim C10 counterexample: with `block_size = 0` (accepted by the
decode-time check, which only requires presence), a Replace operation whose
source slice is nonempty does *not* panic: it fails with the run-time
`ExcessSourceData` error before reaching the alignment computation.  So it
is not the case that *any* Replace-family operation panics under
`block_size = 0`. -/
theorem claim_C10_counterexample :
    require_block_size (some 0) = .ok 0 ∧
    run_op false (fun _ => []) id id
        ⟨some .replace, some 0, some 1, none, [⟨some 0, some 1⟩]⟩
        [1] 4 0 [9]
      = (.err .excessData, [9]) := by
  constructor
  · rfl
  · decide

/-- Claim C10 (amended): manifest decoding only checks that `block_size` is
present, not that it is positive, so `block_size = 0` is accepted; a
Replace-family operation whose source stream is empty and whose destination
extent list is nonempty (with fields present) then panics in the alignment
computation `(bytes_read + block_size - 1) / block_size * block_size`
(unsigned underflow / division by zero) rather than failing with an error;
Replace operations with a nonempty stream instead fail with
`ExcessSourceData`. -/
theorem claim_C10 (noVerify : Bool) (digest bzdec xzdec : List Nat → List Nat)
    (op : InstallOperation) (payloadData : List Nat)
    (partition_len : Nat) (buf : List Nat) (offset m : Nat)
    (htype : op.type? = some .replace)
    (hdl : op.data_length = some 0)
    (hdo : op.data_offset = some offset)
    (hsrc : offset + 0 ≤ payloadData.length)
    (hhash : op.data_sha256_hash = none)
    (hlen : op.dst_extents.length = m + 1)
    (hfields : ∀ e ∈ op.dst_extents, e.start_block.isSome ∧ e.num_blocks.isSome) :
    require_block_size (some 0) = .ok 0 ∧
    run_op noVerify digest bzdec xzdec op payloadData partition_len 0 buf
      = (.panic, buf) := by
  refine ⟨rfl, ?_⟩
  have hext := extract_dst_extents_zero_bs op.dst_extents partition_len hfields
  rw [hlen] at hext
  simp only [run_op, hdl, hdo, if_pos hsrc, check_data_hash, hhash, hext,
    run_op_dispatch, htype, List.take_zero, run_op_replace_zero_bs]

/-- Claim C10 witness: a concrete Replace operation with an empty source
slice and one extent panics under `block_size = 0`, which the decode check
accepted. -/
theorem claim_C10_witness :
    require_block_size (some 0) = .ok 0 ∧
    run_op false (fun _ => []) id id
        ⟨some .replace, some 0, some 0, none, [⟨some 0, some 1⟩]⟩
        [1] 4 0 [9]
      = (.panic, [9]) :=
  claim_C10 false (fun _ => []) id id
    ⟨some .replace, some 0, some 0, none, [⟨some 0, some 1⟩]⟩
    [1] 4 [9] 0 0 rfl rfl rfl (by decide) rfl rfl (by decide)

/-- Claim C5: for an operation carrying an expected content hash, with
verification enabled and the source range slicing successfully, `run_op`
fails with `HashMismatch` if and only if the digest of the sliced source
bytes differs from the expected hash; and on such a failure the partition
buffer is returned unchanged — no byte has been written, since verification
precedes extent resolution and all destination writes. -/
theorem claim_C5 (digest bzdec xzdec : List Nat → List Nat)
    (op : InstallOperation) (payloadData : List Nat)
    (partition_len block_size : Nat) (buf : List Nat)
    (h : List Nat) (data_len offset : Nat)
    (hh : op.data_sha256_hash = some h)
    (hdl : op.data_length = some data_len)
    (hdo : op.data_offset = some offset)
    (hsrc : offset + data_len ≤ payloadData.length) :
    ((run_op false digest bzdec xzdec op payloadData partition_len block_size buf).1
        = .err .hashMismatch
      ↔ digest ((payloadData.drop offset).take data_len) ≠ h) ∧
    (digest ((payloadData.drop offset).take data_len) ≠ h →
      run_op false digest bzdec xzdec op payloadData partition_len block_size buf
        = (.err .hashMismatch, buf)) := by
  by_cases hd : digest ((payloadData.drop offset).take data_len) = h
  · have hok : check_data_hash false digest op.data_sha256_hash
        ((payloadData.drop offset).take data_len) = .ok () := by
      simp [check_data_hash, hh, verify_sha256, hd]
    constructor
    · refine ⟨fun hres => ?_, fun hne => absurd hd hne⟩
      exfalso
      revert hres
      simp only [run_op, hdl, hdo, if_pos hsrc, hok]
      cases hext : extract_dst_extents op.dst_extents partition_len block_size with
      | error e =>
        intro hcontra
        apply extract_dst_extents_ne_hash op.dst_extents partition_len block_size
        rw [hext]
        cases hcontra
        rfl
      | ok exts =>
        exact run_op_dispatch_ne_hash bzdec xzdec op.type?
          ((payloadData.drop offset).take data_len) exts block_size buf
    · intro hcontra
      exact absurd hd hcontra
  · have hbad : check_data_hash false digest op.data_sha256_hash
        ((payloadData.drop offset).take data_len) = .error .hashMismatch := by
      simp [check_data_hash, hh, verify_sha256, hd]
    constructor
    · simp only [run_op, hdl, hdo, if_pos hsrc, hbad]
      exact ⟨fun _ => hd, fun _ => trivial⟩
    · intro _
      simp only [run_op, hdl, hdo, if_pos hsrc, hbad]

/-- The first component of `fill_extents` under a sufficient stream: all
non-last extents are filled completely, consuming exactly their total
length. -/
theorem fill_extents_fst (exts : List (Nat × Nat)) :
    ∀ (stream buf : List Nat) (acc : Nat),
      extents_len exts ≤ stream.length →
      (fill_extents stream exts buf acc).1
        = some (stream.drop (extents_len exts), acc + extents_len exts) := by
  induction exts with
  | nil =>
    intro stream buf acc _
    simp [fill_extents, extents_len]
  | cons e rest ih =>
    intro stream buf acc hlen
    have hlen' : extents_len (e :: rest) = e.2 + extents_len rest := by
      simp [extents_len]
    have he : e.2 ≤ stream.length := by omega
    have hrest : extents_len rest ≤ (stream.drop e.2).length := by
      rw [List.length_drop]; omega
    simp only [fill_extents, read_exact_of_le he, ih (stream.drop e.2) _ (acc + e.2) hrest,
      List.drop_drop, hlen']
    rw [Nat.add_assoc]

/-- Total extent length decomposes over the last extent. -/
theorem extents_len_dropLast (exts : List (Nat × Nat)) (hne : exts ≠ []) :
    extents_len exts = extents_len exts.dropLast + (exts.getLast hne).2 := by
  conv_lhs => rw [← List.dropLast_append_getLast hne]
  simp [extents_len]

/-- Under a stream long enough to fill the non-last extents,
`run_op_replace` reduces to the finishing step on the remaining stream. -/
theorem run_op_replace_eq (stream : List Nat) (exts : List (Nat × Nat))
    (bs : Nat) (buf : List Nat) (hne : exts ≠ [])
    (hfill : extents_len exts.dropLast ≤ stream.length) :
    run_op_replace stream exts bs buf
      = replace_finish (stream.drop (extents_len exts.dropLast))
          (extents_len exts.dropLast) (exts.getLast hne) bs (extents_len exts)
          (fill_extents stream exts.dropLast buf 0).2 := by
  have hfst := fill_extents_fst exts.dropLast stream buf 0 hfill
  simp only [run_op_replace, List.getLast?_eq_getLast exts hne]
  rcases hfe : fill_extents stream exts.dropLast buf 0 with ⟨o, buf1⟩
  rw [hfe] at hfst
  simp only at hfst
  subst hfst
  simp

/-- Claim C3: for every Replace-family operation (the literal stream being
the raw or decompressed source), with nonempty destination extents of total
length `L`, positive block size `B`, and a stream long enough for the
non-last extents (which are each filled completely, in declared order, the
last being filled best-effort): if the stream has more than `L` bytes the
operation fails with `ExcessSourceData`; otherwise all `bytes_read =
stream.length` bytes were read and the operation succeeds iff
`ceil(bytes_read / B) * B = L`, failing with `InsufficientSourceData` when
it does not. -/
theorem claim_C3 (stream : List Nat) (exts : List (Nat × Nat))
    (block_size : Nat) (buf : List Nat)
    (hne : exts ≠ []) (hbs : 0 < block_size)
    (hfill : extents_len exts.dropLast ≤ stream.length) :
    (extents_len exts < stream.length →
      (run_op_replace stream exts block_size buf).1 = .err .excessData) ∧
    (stream.length ≤ extents_len exts →
      (((run_op_replace stream exts block_size buf).1 = .ok ())
        ↔ (stream.length + block_size - 1) / block_size * block_size
            = extents_len exts) ∧
      ((stream.length + block_size - 1) / block_size * block_size
          ≠ extents_len exts →
        (run_op_replace stream exts block_size buf).1 = .err .insufficientData)) := by
  rw [run_op_replace_eq stream exts block_size buf hne hfill]
  have hsplit := extents_len_dropLast exts hne
  set SI := extents_len exts.dropLast with hSI
  set lastE := exts.getLast hne with hlastE
  simp only [replace_finish, read_exact_best_effort, List.drop_drop]
  have hbs' : ¬ block_size = 0 := Nat.pos_iff_ne_zero.mp hbs
  constructor
  · intro hexcess
    have hne2 : ¬ ((stream.drop (SI + lastE.2)).isEmpty = true) := by
      rw [List.isEmpty_iff, List.drop_eq_nil_iff]
      omega
    rw [if_neg hne2]
  · intro hle
    have hs2 : (stream.drop (SI + lastE.2)).isEmpty = true := by
      rw [List.isEmpty_iff, List.drop_eq_nil_iff]
      omega
    have hlen1 : ((stream.drop SI).take lastE.2).length = stream.length - SI := by
      rw [List.length_take, List.length_drop]
      omega
    rw [if_pos hs2, hlen1, show SI + (stream.length - SI) = stream.length from by omega,
      if_neg hbs']
    by_cases hal : (stream.length + block_size - 1) / block_size * block_size
        = extents_len exts
    · rw [if_pos hal]
      exact ⟨⟨fun _ => hal, fun _ => rfl⟩, fun hcontra => absurd hal hcontra⟩
    · rw [if_neg hal]
      exact ⟨⟨fun h => absurd h (by simp), fun h => absurd h hal⟩, fun _ => rfl⟩

/-- Writing within bounds preserves the buffer length. -/
theorem write_at_length {buf : List Nat} {off : Nat} {data : List Nat}
    (h : off + data.length ≤ buf.length) :
    (write_at buf off data).length = buf.length := by
  simp only [write_at, List.length_append, List.length_take, List.length_drop]
  omega

/-- Reading back exactly the range just written yields the written data. -/
theorem read_extent_write_at_self {buf : List Nat} {off : Nat} {data : List Nat}
    (h : off + data.length ≤ buf.length) :
    read_extent (write_at buf off data) (off, data.length) = data := by
  have hofflen : (buf.take off).length = off := by
    rw [List.length_take]
    omega
  simp only [read_extent, write_at]
  rw [List.append_assoc, List.drop_left' hofflen, List.take_left' rfl]

/-- Reading a range disjoint from the range just written is unaffected by
the write. -/
theorem read_extent_write_at_disjoint {buf : List Nat} {woff : Nat}
    {data : List Nat} {q : Nat × Nat}
    (hd : ExtDisjoint q (woff, data.length))
    (hw : woff + data.length ≤ buf.length) :
    read_extent (write_at buf woff data) q = read_extent buf q := by
  obtain ⟨off, len⟩ := q
  have hwofflen : (buf.take woff).length = woff := by
    rw [List.length_take]
    omega
  rcases hd with hleft | hright
  · -- the read range lies entirely to the left of the write
    simp only at hleft
    simp only [read_extent, write_at]
    rw [List.append_assoc, List.drop_append_eq_append_drop, hwofflen,
      show off - woff = 0 from by omega, List.drop_zero]
    have hlen1 : len ≤ ((buf.take woff).drop off).length := by
      rw [List.length_drop, hwofflen]
      omega
    rw [List.take_append_of_le_length hlen1, List.drop_take, List.take_take,
      show min len (woff - off) = len from by omega]
  · -- the read range lies entirely to the right of the write
    simp only at hright
    have hlenA : (buf.take woff ++ data).length = woff + data.length := by
      rw [List.length_append, hwofflen]
    simp only [read_extent, write_at]
    rw [List.drop_append_eq_append_drop,
      List.drop_eq_nil_of_le (by rw [hlenA]; omega), List.nil_append, hlenA,
      List.drop_drop, show woff + data.length + (off - (woff + data.length)) = off
        from by omega]

/-- Unfolding of `read_extents` over a cons cell. -/
theorem read_extents_cons (buf : List Nat) (e : Nat × Nat) (l : List (Nat × Nat)) :
    read_extents buf (e :: l) = read_extent buf e ++ read_extents buf l := by
  simp [read_extents]

/-- `read_extents` distributes over list append. -/
theorem read_extents_append (buf : List Nat) (l1 l2 : List (Nat × Nat)) :
    read_extents buf (l1 ++ l2) = read_extents buf l1 ++ read_extents buf l2 := by
  simp [read_extents]

/-- A write disjoint from every extent of a list leaves the read-back of the
whole list unchanged. -/
theorem read_extents_write_at_disjoint {buf : List Nat} {woff : Nat}
    {data : List Nat} {l : List (Nat × Nat)}
    (hd : ∀ e ∈ l, ExtDisjoint e (woff, data.length))
    (hw : woff + data.length ≤ buf.length) :
    read_extents (write_at buf woff data) l = read_extents buf l := by
  induction l with
  | nil => simp [read_extents]
  | cons e rest ih =>
    rw [read_extents_cons, read_extents_cons,
      read_extent_write_at_disjoint (hd e (List.mem_cons_self e rest)) hw,
      ih (fun q hq => hd q (List.mem_cons_of_mem e hq))]

/-- Invariant of the non-last-extent fill loop: under a sufficient stream
and in-bounds extents, the buffer keeps its length, any range disjoint from
all the extents is untouched, and, when the extents are pairwise disjoint,
reading them back yields exactly the consumed prefix of the stream. -/
theorem fill_extents_snd_spec (exts : List (Nat × Nat)) :
    ∀ (stream buf : List Nat) (acc : Nat),
      extents_len exts ≤ stream.length →
      (∀ e ∈ exts, e.1 + e.2 ≤ buf.length) →
      (fill_extents stream exts buf acc).2.length = buf.length ∧
      (∀ q : Nat × Nat, (∀ e ∈ exts, ExtDisjoint q e) →
        read_extent (fill_extents stream exts buf acc).2 q
          = read_extent buf q) ∧
      (List.Pairwise ExtDisjoint exts →
        read_extents (fill_extents stream exts buf acc).2 exts
          = stream.take (extents_len exts)) := by
  induction exts with
  | nil =>
    intro stream buf acc _ _
    refine ⟨rfl, fun q _ => rfl, fun _ => ?_⟩
    simp [read_extents, extents_len]
  | cons e rest ih =>
    intro stream buf acc hlen hbounds
    have hlen' : extents_len (e :: rest) = e.2 + extents_len rest := by
      simp [extents_len]
    have he : e.2 ≤ stream.length := by omega
    have hchunklen : (stream.take e.2).length = e.2 := List.length_take_of_le he
    have hbe : e.1 + e.2 ≤ buf.length := hbounds e (List.mem_cons_self e rest)
    have hwb : e.1 + (stream.take e.2).length ≤ buf.length := by
      rw [hchunklen]; exact hbe
    have hlen0 : (write_at buf e.1 (stream.take e.2)).length = buf.length :=
      write_at_length hwb
    have hrest : extents_len rest ≤ (stream.drop e.2).length := by
      rw [List.length_drop]; omega
    have hbounds2 : ∀ q ∈ rest, q.1 + q.2 ≤ (write_at buf e.1 (stream.take e.2)).length := by
      intro q hq
      rw [hlen0]
      exact hbounds q (List.mem_cons_of_mem e hq)
    obtain ⟨ih1, ih2, ih3⟩ :=
      ih (stream.drop e.2) (write_at buf e.1 (stream.take e.2)) (acc + e.2) hrest hbounds2
    simp only [fill_extents, read_exact_of_le he]
    refine ⟨by rw [ih1, hlen0], ?_, ?_⟩
    · intro q hdisj
      rw [ih2 q (fun p hp => hdisj p (List.mem_cons_of_mem e hp))]
      have hde : ExtDisjoint q (e.1, (stream.take e.2).length) := by
        rw [hchunklen]
        exact hdisj e (List.mem_cons_self e rest)
      exact read_extent_write_at_disjoint hde hwb
    · intro hpw
      rw [List.pairwise_cons] at hpw
      rw [read_extents_cons]
      have hpair : (e.1, (stream.take e.2).length) = e := by
        rw [hchunklen]
      have hself := read_extent_write_at_self hwb
      rw [hpair] at hself
      have hfirst : read_extent (fill_extents (stream.drop e.2) rest
          (write_at buf e.1 (stream.take e.2)) (acc + e.2)).2 e = stream.take e.2 := by
        rw [ih2 e (fun p hp => hpw.1 p hp)]
        exact hself
      rw [hfirst, ih3 hpw.2, hlen', List.take_add]

/-- The alignment formula is the identity on multiples of the block size. -/
theorem align_of_dvd {b n : Nat} (hb : 0 < b) (hdvd : b ∣ n) :
    (n + b - 1) / b * b = n := by
  obtain ⟨k, hk⟩ := hdvd
  subst hk
  rw [show b * k + b - 1 = b * k + (b - 1) from by omega,
    Nat.mul_add_div hb, Nat.div_eq_of_lt (by omega), Nat.add_zero,
    Nat.mul_comm]

/-- Claim C4: round-trip.  For a Replace-family literal write whose stream
has length equal to the total length `L` of its (in-bounds, pairwise
disjoint) destination extents, with `L` a positive multiple of the block
size, the operation succeeds and the destination extents, concatenated in
declared order, are byte-identical to the stream. -/
theorem claim_C4 (stream : List Nat) (exts : List (Nat × Nat))
    (block_size : Nat) (buf : List Nat)
    (hlen : extents_len exts = stream.length)
    (hpos : 0 < stream.length)
    (hdvd : block_size ∣ stream.length)
    (hbounds : ∀ e ∈ exts, e.1 + e.2 ≤ buf.length)
    (hdisj : List.Pairwise ExtDisjoint exts) :
    (run_op_replace stream exts block_size buf).1 = .ok () ∧
    read_extents (run_op_replace stream exts block_size buf).2 exts = stream := by
  have hne : exts ≠ [] := by
    intro hcontra
    rw [hcontra] at hlen
    simp only [extents_len, List.map_nil, List.sum_nil] at hlen
    omega
  have hbs : 0 < block_size := by
    rcases Nat.eq_zero_or_pos block_size with h0 | h
    · exfalso
      rw [h0] at hdvd
      have := Nat.eq_zero_of_zero_dvd hdvd
      omega
    · exact h
  have hsplit := extents_len_dropLast exts hne
  have hfill : extents_len exts.dropLast ≤ stream.length := by omega
  have hlist : exts.dropLast ++ [exts.getLast hne] = exts :=
    List.dropLast_append_getLast hne
  obtain ⟨hf1, -, hf3⟩ := fill_extents_snd_spec exts.dropLast stream buf 0 hfill
    (fun e he => hbounds e (by rw [← hlist]; exact List.mem_append_left _ he))
  rw [run_op_replace_eq stream exts block_size buf hne hfill]
  set SI := extents_len exts.dropLast with hSI
  set lastE := exts.getLast hne with hlastE
  set fbuf := (fill_extents stream exts.dropLast buf 0).2 with hfbuf
  simp only [replace_finish, read_exact_best_effort]
  have hgot : (stream.drop SI).take lastE.2 = stream.drop SI :=
    List.take_of_length_le (by rw [List.length_drop]; omega)
  rw [hgot]
  have hs1len : (stream.drop SI).length = lastE.2 := by
    rw [List.length_drop]; omega
  have hs2 : ((stream.drop SI).drop lastE.2).isEmpty = true := by
    rw [List.drop_drop, List.isEmpty_iff, List.drop_eq_nil_iff]
    omega
  have hlastbound : lastE.1 + lastE.2 ≤ buf.length :=
    hbounds lastE (by rw [hlastE]; exact List.getLast_mem hne)
  have hwlast : lastE.1 + (stream.drop SI).length ≤ fbuf.length := by
    rw [hs1len, hf1]
    exact hlastbound
  have halign : (SI + (stream.drop SI).length + block_size - 1)
      / block_size * block_size = extents_len exts := by
    rw [hs1len, ← hsplit, hlen]
    exact align_of_dvd hbs hdvd
  have hpw : List.Pairwise ExtDisjoint (exts.dropLast ++ [lastE]) := by
    rw [hlist]
    exact hdisj
  rw [List.pairwise_append] at hpw
  rw [if_pos hs2, if_neg (Nat.pos_iff_ne_zero.mp hbs), if_pos halign]
  refine ⟨rfl, ?_⟩
  have hdisje : ∀ e ∈ exts.dropLast, ExtDisjoint e (lastE.1, (stream.drop SI).length) := by
    intro e he
    rw [hs1len]
    exact hpw.2.2 e he lastE (List.mem_singleton.mpr rfl)
  have hinit : read_extents (write_at fbuf lastE.1 (stream.drop SI)) exts.dropLast
      = stream.take SI := by
    rw [read_extents_write_at_disjoint hdisje hwlast]
    exact hf3 hpw.1
  have hpair : (lastE.1, (stream.drop SI).length) = lastE := by
    rw [hs1len]
  have hself := read_extent_write_at_self hwlast
  rw [hpair] at hself
  calc read_extents (write_at fbuf lastE.1 (stream.drop SI)) exts
      = read_extents (write_at fbuf lastE.1 (stream.drop SI))
          (exts.dropLast ++ [lastE]) := by rw [hlist]
    _ = stream.take SI ++ stream.drop SI := by
          rw [read_extents_append, hinit, read_extents_cons, hself]
          simp [read_extents]
    _ = stream := List.take_append_drop SI stream

/-- Claim C5 witness: with digest function constantly `[1]` and expected
hash `[9]`, a concrete Replace operation aborts with `HashMismatch` and the
buffer is unchanged. -/
theorem claim_C5_witness :
    run_op false (fun _ => [1]) id id
        ⟨some .replace, some 0, some 2, some [9], [⟨some 0, some 1⟩]⟩
        [3, 4] 2 2 [0, 0]
      = (.err .hashMismatch, [0, 0]) :=
  (claim_C5 (fun _ => [1]) id id
      ⟨some .replace, some 0, some 2, some [9], [⟨some 0, some 1⟩]⟩
      [3, 4] 2 2 [0, 0] [9] 2 0 rfl rfl rfl (by decide)).2 (by decide)

/-- Claim C3 witness: a 3-byte stream into extents of total length 4 at
block size 2 succeeds (the final block is padded), and a 5-byte stream into
the same extents fails with `ExcessSourceData`. -/
theorem claim_C3_witness :
    (run_op_replace [1, 2, 3] [(0, 2), (2, 2)] 2 [0, 0, 0, 0]).1 = .ok () ∧
    (run_op_replace [1, 2, 3, 4, 5] [(0, 2), (2, 2)] 2 [0, 0, 0, 0]).1
      = .err .excessData :=
  ⟨((claim_C3 [1, 2, 3] [(0, 2), (2, 2)] 2 [0, 0, 0, 0]
        (by decide) (by decide) (by decide)).2 (by decide)).1.mpr (by decide),
   (claim_C3 [1, 2, 3, 4, 5] [(0, 2), (2, 2)] 2 [0, 0, 0, 0]
        (by decide) (by decide) (by decide)).1 (by decide)⟩

/-- Claim C4 witness: a 4-byte literal stream into two disjoint 2-byte
extents (declared out of buffer order) succeeds and reads back, in declared
order, byte-identical to the stream. -/
theorem claim_C4_witness :
    (run_op_replace [1, 2, 3, 4] [(2, 2), (0, 2)] 2 [9, 9, 9, 9]).1 = .ok () ∧
    read_extents (run_op_replace [1, 2, 3, 4] [(2, 2), (0, 2)] 2 [9, 9, 9, 9]).2
        [(2, 2), (0, 2)]
      = [1, 2, 3, 4] :=
  claim_C4 [1, 2, 3, 4] [(2, 2), (0, 2)] 2 [9, 9, 9, 9]
    (by decide) (by decide) (by decide) (by decide) (by decide)

end Otadump
